import Mathlib

/-!
Verification of `search-by-codeowner` (`src/index.js`).

The program is a one-shot CLI pipeline: parse `.github/CODEOWNERS`, filter
entries by the requested owner, and for each owned path pattern search the
files under it (pruned by `.gitignore` patterns) for a case-insensitive
substring.

Shallow embedding conventions:
* The filesystem rooted at the process working directory is an explicit
  `Entry` tree; paths are lists of segments relative to the root.
  `path.join` / `path.relative` are modelled by splitting on `'/'` and
  joining with `'/'` (no `.`/`..` normalisation is modelled; no claim
  involves dot segments).
* `fs.readFileSync` failures (missing file, unreadable file, reading a
  directory) are modelled as `none` / `Except.error`; JavaScript
  `try`/`catch` becomes an explicit `match` on the `Except`.
* JavaScript string helpers (`trim`, `split`, `toLowerCase`, `includes`,
  `startsWith`) are given executable models on `List Char` / `String`;
  case folding is ASCII (`Char.toLower`), matching `toLowerCase` on the
  ASCII inputs the claims are about.
* The `gitignore` glob is translated exactly as the source does: only `'.'`
  is escaped, then `'*'` becomes "any characters" and `'?'` becomes
  "any single char"; the resulting JavaScript regex fragment is modelled by
  the `RE` type with a Brzozowski-derivative matcher.  `'+'` keeps its JS
  regex meaning (one-or-more of the previous atom).  Patterns containing
  regex syntax outside this fragment (`(`, `[`, `|`, `^`, `$`, `\`, braces,
  ill-placed `+`) are outside the model: `globAtoms` returns `none` and the
  pattern is treated as non-matching; every theorem about `isIgnored`
  stays inside the modelled fragment.
-/

namespace SBC

/-! ## JavaScript string primitives -/

/-- `line.trim()`: drop whitespace at both ends. -/
def trimChars (l : List Char) : List Char :=
  ((l.dropWhile Char.isWhitespace).reverse.dropWhile Char.isWhitespace).reverse

/-- `s.split(sep)`-style split at every character satisfying `p`,
keeping empty pieces (JS `split` keeps them; callers filter). -/
def splitPred (p : Char → Bool) : List Char → List (List Char)
  | [] => [[]]
  | c :: cs =>
    match splitPred p cs, p c with
    | r, true => [] :: r
    | [], false => [[c]]
    | h :: t, false => (c :: h) :: t

/-- `s.startsWith(String.fromCharCode c)` on a character list. -/
def startsWithChar (c : Char) : List Char → Bool
  | [] => false
  | c' :: _ => c' = c

/-- `s.toLowerCase()` (ASCII case folding). -/
def strLower (s : String) : String :=
  String.mk (s.toList.map Char.toLower)

/-- `s.includes(sub)`: substring test. -/
def jsIncludes (s sub : String) : Bool :=
  s.toList.tails.any (fun t => sub.toList.isPrefixOf t)

/-- `content.split(newline)` producing strings. -/
def splitLines (content : String) : List String :=
  (splitPred (fun c => c = '\n') content.toList).map String.mk

/-! ## CODEOWNERS parser (`parseCodeowners`, src/index.js lines 12-42) -/

/-- One parsed CODEOWNERS entry: `{ path: string, owners: string[] }`. -/
structure CEntry where
  path : String
  owners : List String
deriving DecidableEq

/-- `trimmedLine.split(whitespace-runs)`: the whitespace-separated tokens of
the trimmed line (JS `split(/\s+/)` on a trimmed line). -/
def lineTokens (line : String) : List (List Char) :=
  (splitPred Char.isWhitespace (trimChars line.toList)).filter (fun p => !p.isEmpty)

/-- The per-line body of the `parseCodeowners` loop: skip comments, blank
lines and lines with fewer than two tokens; otherwise the first token is the
path and the owners are the tokens starting with `'@'`.  Note the source
filters *all* tokens (`parts.filter`), so a path token starting with `'@'`
also lands in the owner list. -/
def parseLine (line : String) : Option CEntry :=
  if startsWithChar '#' (trimChars line.toList) || (trimChars line.toList).isEmpty then
    none
  else
    match lineTokens line with
    | _ :: _ :: _ =>
      some ⟨String.mk (lineTokens line).headI,
            ((lineTokens line).filter (fun p => startsWithChar '@' p)).map String.mk⟩
    | _ => none

/-- `parseCodeowners` applied to the file content it read. -/
def parseCodeownersContent (content : String) : List CEntry :=
  (splitLines content).filterMap parseLine

/-! ## Filesystem model -/

/-- A filesystem node: a regular file (with a readability flag modelling
`readFileSync` success) or a directory with named children in
directory-listing order. -/
inductive Entry where
  | file (readable : Bool) (content : String)
  | dir (children : List (String × Entry))

/-- First child with the given name. -/
def findChild (name : String) : List (String × Entry) → Option Entry
  | [] => none
  | (n, e) :: rest => if n = name then some e else findChild name rest

/-- Resolve a segment path from a node. -/
def lookup : Entry → List String → Option Entry
  | e, [] => some e
  | .file _ _, _ :: _ => none
  | .dir cs, n :: rest =>
    match findChild n cs with
    | some e => lookup e rest
    | none => none

/-- `fs.readFileSync(path, 'utf8')`: `some content` on success, `none` when
the path is missing, unreadable, or a directory (the throwing cases). -/
def readFile (root : Entry) (segs : List String) : Option String :=
  match lookup root segs with
  | some (.file true c) => some c
  | _ => none

/-- `path.relative(cwd, ...)` of a segment path: segments joined by `'/'`. -/
def pathJoin (segs : List String) : String :=
  String.intercalate "/" segs

/-- `basePath.replace(leading-slash, '')`. -/
def stripLeadSlash : List Char → List Char
  | '/' :: rest => rest
  | l => l

/-- Split a path string into segments (`path.join` normalisation of empty
segments included). -/
def splitSlash (l : List Char) : List String :=
  ((splitPred (fun c => c = '/') l).filter (fun s => !s.isEmpty)).map String.mk

/-- `path.join(process.cwd(), basePath.replace(leading-slash, ''))`,
as segments relative to the root. -/
def normBase (basePath : String) : List String :=
  splitSlash (stripLeadSlash basePath.toList)

/-- `parseCodeowners(CODEOWNERS_FILE)`: missing file is a soft failure
(empty entry list); a CODEOWNERS path that exists but cannot be read as a
file makes `readFileSync` throw with no handler (`Except.error`). -/
def parseCodeowners (root : Entry) : Except Unit (List CEntry) :=
  match lookup root [".github", "CODEOWNERS"] with
  | none => .ok []
  | some (.file true c) => .ok (parseCodeownersContent c)
  | some (.file false _) => .error ()
  | some (.dir _) => .error ()

/-! ## Ignore patterns (`parseGitignore` / `isIgnored`, src/index.js lines 44-77) -/

/-- JS `Set` construction: add in order, keeping first occurrences only. -/
def addUnique (acc : List String) (x : String) : List String :=
  if x ∈ acc then acc else acc ++ [x]

/-- `parseGitignore` applied to the file content: split lines, trim, keep
non-blank non-comment lines, collect into a `Set` (order-preserving,
first-occurrence dedup). -/
def gitignorePatterns (content : String) : List String :=
  ((((splitPred (fun c => c = '\n') content.toList).map trimChars).filter
      (fun l => !l.isEmpty && !startsWithChar '#' l)).map String.mk).foldl addUnique []

/-- `parseGitignore()`: `readFileSync(cwd/.gitignore)` with no handler, so a
missing or unreadable ignore file is a thrown error. -/
def parseGitignore (root : Entry) : Except Unit (List String) :=
  match readFile root [".gitignore"] with
  | some c => .ok (gitignorePatterns c)
  | none => .error ()

/-- Regular expressions over the fragment the glob translation produces. -/
inductive RE where
  | emp : RE
  | eps : RE
  | chr : Char → RE
  | dot : RE
  | alt : RE → RE → RE
  | cat : RE → RE → RE
  | star : RE → RE

/-- Does the regex accept the empty string? -/
def nullable : RE → Bool
  | .emp => false
  | .eps => true
  | .chr _ => false
  | .dot => false
  | .alt a b => nullable a || nullable b
  | .cat a b => nullable a && nullable b
  | .star _ => true

/-- JS `.` matches any character except a line terminator. -/
def isLineTerm (c : Char) : Bool :=
  c = '\n' || c = '\r' || c = '\u2028' || c = '\u2029'

/-- Brzozowski derivative. -/
def deriv : RE → Char → RE
  | .emp, _ => .emp
  | .eps, _ => .emp
  | .chr c, a => if a = c then .eps else .emp
  | .dot, a => if isLineTerm a then .emp else .eps
  | .alt x y, a => .alt (deriv x a) (deriv y a)
  | .cat x y, a => if nullable x then .alt (.cat (deriv x a) y) (deriv y a)
                   else .cat (deriv x a) y
  | .star x, a => .cat (deriv x a) (.star x)

/-- Full-string regex match. -/
def reMatch : RE → List Char → Bool
  | r, [] => nullable r
  | r, c :: cs => reMatch (deriv r c) cs

/-- One atom of the translated glob: after the source's three replaces
(escape `'.'`, `'*'` to any-characters, `'?'` to any-single-character),
the regex is a sequence of these atoms; a `'+'` in the pattern survives the
replaces and, as in JS, makes one-or-more of the preceding atom. -/
inductive GAtom where
  | lit : Char → GAtom
  | anyc : GAtom
  | anystar : GAtom
  | rep : GAtom → GAtom
deriving DecidableEq

/-- Regex syntax characters the translation leaves unescaped and that are
outside the modelled fragment. -/
def regexMeta (c : Char) : Bool :=
  c = '\\' || c = '(' || c = ')' || c = '[' || c = ']' ||
  c = '|' || c = '^' || c = '$' || c = '\x7b' || c = '\x7d'

/-- Translate the glob pattern into atoms, mirroring the source's character
classes: `'.'` is escaped (literal), `'*'` becomes any-characters, `'?'`
becomes any-single-character, `'+'` keeps its regex meaning (one-or-more of
the preceding single atom; in JS a quantifier may not follow another
quantifier, and other regex metacharacters need the full regex grammar, so
those patterns are outside the model: `none`). -/
def globAtomsAux : List GAtom → List Char → Option (List GAtom)
  | acc, [] => some acc.reverse
  | acc, c :: cs =>
    if c = '*' then globAtomsAux (.anystar :: acc) cs
    else if c = '?' then globAtomsAux (.anyc :: acc) cs
    else if c = '+' then
      match acc with
      | .lit a :: rest => globAtomsAux (.rep (.lit a) :: rest) cs
      | .anyc :: rest => globAtomsAux (.rep .anyc :: rest) cs
      | _ => none
    else if regexMeta c then none
    else globAtomsAux (.lit c :: acc) cs

/-- Atom translation of a whole pattern. -/
def globAtoms (pat : List Char) : Option (List GAtom) :=
  globAtomsAux [] pat

/-- Denotation of one atom. -/
def gatomRE : GAtom → RE
  | .lit c => .chr c
  | .anyc => .dot
  | .anystar => .star .dot
  | .rep a => .cat (gatomRE a) (.star (gatomRE a))

/-- Denotation of an atom sequence. -/
def reOfAtoms (l : List GAtom) : RE :=
  l.foldr (fun a r => .cat (gatomRE a) r) .eps

/-- Unanchored search: some substring matches `r` (JS `regex.test` on an
unanchored alternative). -/
def reSearchMid (r : RE) (s : List Char) : Bool :=
  s.tails.any (fun t => t.inits.any (fun p => reMatch r p))

/-- End-anchored search: some suffix matches `r`. -/
def reSearchSuffix (r : RE) (s : List Char) : Bool :=
  s.tails.any (fun t => reMatch r t)

/-- `isIgnored` for a single pattern: the source tests the relative path
against `^P$|P/|/P$`, i.e. a full match of the translated pattern, an
unanchored occurrence of it followed by `'/'`, or an end-anchored occurrence
preceded by `'/'`.  Patterns outside the modelled fragment are treated as
non-matching (every theorem stays inside the fragment). -/
def isIgnoredPat (relPath : String) (pat : String) : Bool :=
  match globAtoms pat.toList with
  | none => false
  | some atoms =>
    reMatch (reOfAtoms atoms) relPath.toList ||
    reSearchMid (reOfAtoms (atoms ++ [.lit '/'])) relPath.toList ||
    reSearchSuffix (reOfAtoms (.lit '/' :: atoms)) relPath.toList

/-- `isIgnored(filePath, patterns)`: first matching pattern wins. -/
def isIgnored (relPath : String) (patterns : List String) : Bool :=
  patterns.any (fun p => isIgnoredPat relPath p)

/-! ## Filesystem walker (`getAllFiles`, src/index.js lines 85-107) -/

/-- The recursive body of `getAllFiles`: visit the children of the directory
at `pre` in listing order, skip any child whose relative path is ignored,
recurse into directories, collect files. -/
def walkChildren (pats : List String) : List String → List (String × Entry) → List (List String)
  | _, [] => []
  | pre, (name, child) :: rest =>
    (if isIgnored (pathJoin (pre ++ [name])) pats then []
     else
       match child with
       | .dir cs => walkChildren pats (pre ++ [name]) cs
       | .file _ _ => [pre ++ [name]]) ++ walkChildren pats pre rest

/-! ## Content search (`searchInFiles`, src/index.js lines 115-158) -/

/-- The body of the per-file loop in the directory branch: read the file,
push its relative path when the lower-cased content contains the lower-cased
term; a failed read only skips the file. -/
def searchStep (root : Entry) (term : String) (acc : List String) (f : List String) : List String :=
  match readFile root f with
  | some c => if jsIncludes (strLower c) (strLower term) then acc ++ [pathJoin f] else acc
  | none => acc

/-- `searchInFiles(basePath, searchTerm)`.  The whole body is inside one
`try`/`catch` that downgrades any thrown error (in particular the
`.gitignore` read inside `getAllFiles`) to the matches collected so far:
at that point, none. -/
def searchInFiles (root : Entry) (basePath : String) (term : String) : List String :=
  match lookup root (normBase basePath) with
  | none => []
  | some (.file readable content) =>
    if readable && jsIncludes (strLower content) (strLower term) then
      [pathJoin (normBase basePath)]
    else []
  | some (.dir cs) =>
    match parseGitignore root with
    | .error _ => []
    | .ok pats => (walkChildren pats (normBase basePath) cs).foldl (searchStep root term) []

/-! ## Orchestrator (`findCodeownersPaths` / main, src/index.js lines 166-210) -/

/-- Case-insensitive owner membership test
(`ownersLower.includes(teamLower)`). -/
def ownerMatch (e : CEntry) (team : String) : Bool :=
  (e.owners.map strLower).contains (strLower team)

/-- `entry.path.replace(stars, '').replace(leading-slash, '')`. -/
def normEntryPath (p : String) : String :=
  String.mk (stripLeadSlash (p.toList.filter (fun c => c ≠ '*')))

/-- The per-entry body of the `findCodeownersPaths` loop: entries owned by
the team contribute their search results to the `Set` of matches. -/
def entryStep (root : Entry) (term team : String) (acc : List String) (e : CEntry) : List String :=
  if ownerMatch e team then
    (searchInFiles root (normEntryPath e.path) term).foldl addUnique acc
  else acc

/-- `findCodeownersPaths(searchTerm, team)`: parse CODEOWNERS, search each
entry owned by the team, accumulate matches into a `Set` (insertion order,
dedup), return as an array.  The CODEOWNERS read error has no handler. -/
def findCodeownersPaths (root : Entry) (term team : String) : Except Unit (List String) :=
  match parseCodeowners root with
  | .error e => .error e
  | .ok entries => .ok (entries.foldl (entryStep root term team) [])

/-- The process exit status of `main`: usage error (`process.exit(1)`) with
fewer than two arguments; otherwise `0` unless an uncaught exception (the
CODEOWNERS read) kills the process with status `1`. -/
def mainExit (root : Entry) (args : List String) : Nat :=
  match args with
  | a0 :: a1 :: _ =>
    match findCodeownersPaths root a0 a1 with
    | .ok _ => 0
    | .error _ => 1
  | _ => 1

/-! ## Derived predicates used in theorem statements -/

/-- Characters the glob translation maps to a single literal atom: no
wildcard, no `'+'`, no regex metacharacter (`'.'` is fine: the source
escapes it). -/
def safeLitChar (c : Char) : Bool :=
  !(c = '*' || c = '?' || c = '+' || regexMeta c)

/-- Whether a walked file is readable and its lower-cased content contains
the lower-cased term: the criterion `searchStep` uses to report a file. -/
def fileMatches (root : Entry) (term : String) (f : List String) : Bool :=
  match readFile root f with
  | some c => jsIncludes (strLower c) (strLower term)
  | none => false

/-! ## Concrete filesystem fixtures -/

/-- Working directory with no `.gitignore`; the CODEOWNERS file has a
directory entry first and a single-file entry second, both owned by
`@team`. -/
def fsNoIgnore : Entry := .dir [
  (".github", .dir [("CODEOWNERS", .file true "src/ @team\nnotes.txt @team")]),
  ("src", .dir [("a.js", .file true "hello")]),
  ("notes.txt", .file true "TODO later")
]

/-- Working directory whose CODEOWNERS file exists but cannot be read. -/
def fsBadCodeowners : Entry := .dir [
  (".github", .dir [("CODEOWNERS", .file false "src/ @team")])
]

/-- Two owned path patterns that normalize to the same file, so the two
entries overlap on it. -/
def fsOverlap : Entry := .dir [
  (".github", .dir [("CODEOWNERS", .file true "/notes.txt @t\nnotes.txt @t")]),
  ("notes.txt", .file true "x TODO y")
]

/-- A file that the ignore set matches, named directly by a path. -/
def fsIgnoredFile : Entry := .dir [
  (".gitignore", .file true "secret.txt"),
  ("secret.txt", .file true "TODO x")
]

/-- Two plain files, one with the term upper-cased, one lower-cased. -/
def fsCase : Entry := .dir [
  ("a.txt", .file true "see TODO here"),
  ("b.txt", .file true "lower todo here")
]

/-! ## Helper lemmas: the derivative matcher on literal words -/

theorem reOfAtoms_nil : reOfAtoms [] = .eps := rfl

theorem reOfAtoms_cons (a : GAtom) (l : List GAtom) :
    reOfAtoms (a :: l) = .cat (gatomRE a) (reOfAtoms l) := rfl

theorem reMatch_emp (s : List Char) : reMatch .emp s = false := by
  induction s with
  | nil => rfl
  | cons c cs ih => simpa [reMatch, deriv] using ih

theorem reMatch_alt (s : List Char) :
    ∀ a b : RE, reMatch (.alt a b) s = (reMatch a s || reMatch b s) := by
  induction s with
  | nil => intro a b; rfl
  | cons c cs ih => intro a b; simpa [reMatch, deriv] using ih (deriv a c) (deriv b c)

theorem reMatch_cat_emp (s : List Char) : ∀ r : RE, reMatch (.cat .emp r) s = false := by
  induction s with
  | nil => intro r; rfl
  | cons c cs ih => intro r; simpa [reMatch, deriv, nullable] using ih r

theorem reMatch_cat_eps (s : List Char) (r : RE) : reMatch (.cat .eps r) s = reMatch r s := by
  cases s with
  | nil => simp [reMatch, nullable]
  | cons c cs =>
    show reMatch (deriv (.cat .eps r) c) cs = reMatch (deriv r c) cs
    simp [deriv, nullable, reMatch_alt, reMatch_cat_emp]

theorem reMatch_eps (s : List Char) : reMatch .eps s = decide (s = []) := by
  cases s with
  | nil => rfl
  | cons c cs => simp [reMatch, deriv, reMatch_emp]

/-- A sequence of literal atoms matches exactly its own word. -/
theorem reMatch_lit (w : List Char) :
    ∀ s, reMatch (reOfAtoms (w.map GAtom.lit)) s = decide (s = w) := by
  induction w with
  | nil => intro s; simpa [reOfAtoms] using reMatch_eps s
  | cons a w ih =>
    intro s
    cases s with
    | nil => simp [reOfAtoms_cons, gatomRE, reMatch, nullable]
    | cons c cs =>
      rw [List.map_cons, reOfAtoms_cons]
      show reMatch (deriv (.cat (gatomRE (.lit a)) (reOfAtoms (w.map GAtom.lit))) c) cs = _
      by_cases hca : c = a
      · subst hca
        simp [deriv, gatomRE, nullable, reMatch_cat_eps, ih cs]
      · simp [deriv, gatomRE, nullable, hca, reMatch_cat_emp]

/-- End-anchored search for a literal word is the suffix relation. -/
theorem reSearchSuffix_lit (u s : List Char) :
    reSearchSuffix (reOfAtoms (u.map GAtom.lit)) s = true ↔ u <:+ s := by
  unfold reSearchSuffix
  simp [List.any_eq_true, reMatch_lit, List.mem_tails]

/-- Unanchored search for a literal word is the infix relation. -/
theorem reSearchMid_lit (u s : List Char) :
    reSearchMid (reOfAtoms (u.map GAtom.lit)) s = true ↔ u <:+: s := by
  unfold reSearchMid
  simp only [List.any_eq_true, reMatch_lit, List.mem_tails, List.mem_inits,
    decide_eq_true_eq, exists_eq_right]
  constructor
  · rintro ⟨t, ⟨pre, rfl⟩, suf, rfl⟩
    exact ⟨pre, suf, by simp⟩
  · rintro ⟨pre, suf, rfl⟩
    exact ⟨u ++ suf, ⟨pre, by simp⟩, suf, rfl⟩

theorem globAtomsAux_lit_step (c : Char) (h : safeLitChar c = true) (acc : List GAtom)
    (cs : List Char) : globAtomsAux acc (c :: cs) = globAtomsAux (.lit c :: acc) cs := by
  have h1 : ¬ c = '*' := by intro e; subst e; simp [safeLitChar] at h
  have h2 : ¬ c = '?' := by intro e; subst e; simp [safeLitChar] at h
  have h3 : ¬ c = '+' := by intro e; subst e; simp [safeLitChar] at h
  have h4 : regexMeta c = false := by
    cases hrm : regexMeta c
    · rfl
    · simp [safeLitChar, hrm] at h
  simp [globAtomsAux, h1, h2, h3, h4]

/-- On a pattern of literal-safe characters the translation is the literal
atom sequence. -/
theorem globAtoms_lit (w : List Char) (h : w.all safeLitChar = true) :
    globAtoms w = some (w.map GAtom.lit) := by
  suffices haux : ∀ (v : List Char), v.all safeLitChar = true →
      ∀ acc : List GAtom, globAtomsAux acc v = some (acc.reverse ++ v.map GAtom.lit) by
    simpa [globAtoms] using haux w h []
  intro v
  induction v with
  | nil => intro _ acc; simp [globAtomsAux]
  | cons c cs ih =>
    intro hv acc
    rw [List.all_cons, Bool.and_eq_true] at hv
    rw [globAtomsAux_lit_step c hv.1, ih hv.2]
    simp

/-! ## Helper lemmas: search loop and dedup -/

theorem foldl_searchStep (root : Entry) (term : String) (l : List (List String)) :
    ∀ acc : List String,
      l.foldl (searchStep root term) acc = acc ++ (l.filter (fileMatches root term)).map pathJoin := by
  induction l with
  | nil => intro acc; simp
  | cons f fs ih =>
    intro acc
    rw [List.foldl_cons, ih]
    unfold searchStep fileMatches
    cases hrf : readFile root f with
    | none => simp [List.filter_cons, hrf]
    | some c =>
      by_cases hin : jsIncludes (strLower c) (strLower term) = true
      · simp [List.filter_cons, hrf, hin]
      · simp [List.filter_cons, hrf, hin]

theorem addUnique_nodup (acc : List String) (x : String) (h : acc.Nodup) :
    (addUnique acc x).Nodup := by
  unfold addUnique
  split
  · exact h
  · next hx => simp [List.nodup_append, h, hx]

theorem foldl_addUnique_nodup (xs : List String) :
    ∀ acc : List String, acc.Nodup → (xs.foldl addUnique acc).Nodup := by
  induction xs with
  | nil => intro acc h; exact h
  | cons x xs ih => intro acc h; exact ih _ (addUnique_nodup acc x h)

theorem foldl_entryStep_nodup (root : Entry) (term team : String) (entries : List CEntry) :
    ∀ acc : List String, acc.Nodup → (entries.foldl (entryStep root term team) acc).Nodup := by
  induction entries with
  | nil => intro acc h; exact h
  | cons e es ih =>
    intro acc h
    rw [List.foldl_cons]
    apply ih
    unfold entryStep
    split
    · exact foldl_addUnique_nodup _ acc h
    · exact h

/-! ## Claim theorems -/

/-- Claim C1, counterexample.  With `.gitignore` unreadable, two arguments,
and a first ownership entry for the owner whose pattern names a directory,
the run is not terminated: the later single-file entry still produces the
search result `"notes.txt"` and the process exits with status `0`, so a
search result is produced past the failed ignore-file read. -/
theorem gitignore_error_not_fatal_cex :
    readFile fsNoIgnore [".gitignore"] = none ∧
    lookup fsNoIgnore (normBase (normEntryPath "src/")) =
      some (.dir [("a.js", .file true "hello")]) ∧
    ownerMatch ⟨"src/", ["@team"]⟩ "@team" = true ∧
    findCodeownersPaths fsNoIgnore "TODO" "@team" = .ok ["notes.txt"] ∧
    mainExit fsNoIgnore ["TODO", "@team"] = 0 :=
  ⟨rfl, rfl, rfl, rfl, rfl⟩

/-- Claim C1 (amended): the failed ignore-file read propagates only to the
per-entry searcher, which catches it; a search whose path names a directory
degrades to an empty result (the run itself continues and file-pattern
entries may still produce results). -/
theorem searchInFiles_dir_gitignore_error (root : Entry) (base term : String)
    (cs : List (String × Entry))
    (h1 : readFile root [".gitignore"] = none)
    (h2 : lookup root (normBase base) = some (.dir cs)) :
    searchInFiles root base term = [] := by
  unfold searchInFiles
  rw [h2]
  unfold parseGitignore
  rw [h1]

/-- Claim C1, witness for the amended theorem at the concrete fixture. -/
theorem searchInFiles_dir_gitignore_error_witness :
    searchInFiles fsNoIgnore "src/" "TODO" = [] :=
  searchInFiles_dir_gitignore_error fsNoIgnore "src/" "TODO"
    [("a.js", .file true "hello")] rfl rfl

/-- Claim C2, counterexample.  The wildcard-free pattern `"a"` also ignores
the path `"a/b"`, which is not equal to the pattern. -/
theorem isIgnored_literal_not_only_exact_cex :
    isIgnored "a/b" ["a"] = true ∧ ("a/b" : String) ≠ "a" :=
  ⟨rfl, by decide⟩

/-- Claim C2 (amended): for a wildcard-free pattern made of literal-safe
characters, a path is ignored exactly when it equals the pattern, contains
the pattern followed by `'/'` as a substring (a directory segment), or ends
with `'/'` followed by the pattern (a trailing suffix). -/
theorem isIgnored_literal_iff (pat rel : String) (h : pat.toList.all safeLitChar = true) :
    isIgnored rel [pat] = true ↔
      (rel = pat ∨ (pat.toList ++ ['/']) <:+: rel.toList ∨
        ('/' :: pat.toList) <:+ rel.toList) := by
  have hfull : reMatch (reOfAtoms (pat.toList.map GAtom.lit)) rel.toList = true ↔ rel = pat := by
    rw [reMatch_lit]
    simp only [decide_eq_true_eq]
    constructor
    · intro e
      cases rel
      cases pat
      exact congrArg String.mk e
    · intro e; rw [e]
  have hmid : reSearchMid (reOfAtoms (pat.toList.map GAtom.lit ++ [GAtom.lit '/'])) rel.toList
      = true ↔ (pat.toList ++ ['/']) <:+: rel.toList := by
    rw [show pat.toList.map GAtom.lit ++ [GAtom.lit '/']
          = (pat.toList ++ ['/']).map GAtom.lit by simp]
    exact reSearchMid_lit _ _
  have hsuf : reSearchSuffix (reOfAtoms (GAtom.lit '/' :: pat.toList.map GAtom.lit)) rel.toList
      = true ↔ ('/' :: pat.toList) <:+ rel.toList := by
    rw [show GAtom.lit '/' :: pat.toList.map GAtom.lit
          = ('/' :: pat.toList).map GAtom.lit by simp]
    exact reSearchSuffix_lit _ _
  have hpat : isIgnoredPat rel pat =
      (reMatch (reOfAtoms (pat.toList.map GAtom.lit)) rel.toList ||
       reSearchMid (reOfAtoms (pat.toList.map GAtom.lit ++ [GAtom.lit '/'])) rel.toList ||
       reSearchSuffix (reOfAtoms (GAtom.lit '/' :: pat.toList.map GAtom.lit)) rel.toList) := by
    unfold isIgnoredPat
    rw [globAtoms_lit pat.toList h]
  simp only [isIgnored, List.any_cons, List.any_nil, Bool.or_false, hpat, Bool.or_eq_true,
    hfull, hmid, hsuf]
  exact or_assoc

/-- Claim C2, witness for the amended theorem: the literal pattern `"foo"`
ignores `"bar/foo"` through the trailing-suffix alternative. -/
theorem isIgnored_literal_iff_witness : isIgnored "bar/foo" ["foo"] = true :=
  (isIgnored_literal_iff "foo" "bar/foo" (by decide)).mpr
    (Or.inr (Or.inr (by decide)))

/-- Claim C3: on the well-formed line `"@a @b"` the source's
`parts.filter((team) => team.startsWith('@'))` runs over *all* tokens, so
the path token `"@a"` is also returned among the owners — contradicting the
source's own comments ("The first part is the path, the rest are owners",
"All subsequent parts are owners"). -/
theorem parseLine_path_sigil_in_owners :
    parseLine "@a @b" = some ⟨"@a", ["@a", "@b"]⟩ := rfl

/-- Claim C4, counterexample.  The conversion escapes only `'.'`, so the
regex metacharacter `'+'` keeps its meaning: pattern `"a+b"` ignores the
path `"aab"`, which contains no literal `'+'`. -/
theorem isIgnored_plus_unescaped_cex :
    isIgnored "aab" ["a+b"] = true ∧ "aab".toList.contains '+' = false :=
  ⟨rfl, rfl⟩

/-- Claim C4 (amended): the conversion escapes only `'.'` before mapping
`'*'` and `'?'`; an unescaped `'+'` acts as the regex one-or-more, so
`"a+b"` matches `"aab"` and `"ab"` but not the literal path `"a+b"`, while
`'.'` really is matched literally (`"a.b"` does not ignore `"aXb"`). -/
theorem isIgnored_metachar_unescaped :
    isIgnored "aab" ["a+b"] = true ∧
    isIgnored "ab" ["a+b"] = true ∧
    isIgnored "a+b" ["a+b"] = false ∧
    isIgnored "a.b" ["a.b"] = true ∧
    isIgnored "aXb" ["a.b"] = false :=
  ⟨rfl, rfl, rfl, rfl, rfl⟩

/-- Claim C5: the content search is case-insensitive.  A path naming a
readable file is reported exactly when the lower-cased content contains the
lower-cased term; a path naming a directory reports exactly the walked
files satisfying the same lower-cased substring criterion. -/
theorem searchInFiles_case_insensitive (root : Entry) (base term : String) :
    (∀ readable c, lookup root (normBase base) = some (.file readable c) →
      searchInFiles root base term =
        if readable && jsIncludes (strLower c) (strLower term) then
          [pathJoin (normBase base)]
        else []) ∧
    (∀ cs pats, lookup root (normBase base) = some (.dir cs) →
      parseGitignore root = .ok pats →
      searchInFiles root base term =
        ((walkChildren pats (normBase base) cs).filter (fileMatches root term)).map pathJoin) := by
  constructor
  · intro readable c h
    unfold searchInFiles
    rw [h]
  · intro cs pats h1 h2
    unfold searchInFiles
    rw [h1, h2]
    simpa using foldl_searchStep root term (walkChildren pats (normBase base) cs) []

/-- Claim C5, witness: `"todo"` finds a file containing `"TODO"` and
`"TODO"` finds a file containing `"todo"`. -/
theorem searchInFiles_case_insensitive_witness :
    searchInFiles fsCase "a.txt" "todo" = ["a.txt"] ∧
    searchInFiles fsCase "b.txt" "TODO" = ["b.txt"] :=
  ⟨((searchInFiles_case_insensitive fsCase "a.txt" "todo").1 true "see TODO here" rfl).trans
      (by decide),
   ((searchInFiles_case_insensitive fsCase "b.txt" "TODO").1 true "lower todo here" rfl).trans
      (by decide)⟩

/-- Claim C6, counterexample.  With two arguments but a CODEOWNERS file
that exists and is unreadable, `readFileSync` throws with no handler and
the process dies with status `1`, not `0`. -/
theorem mainExit_unreadable_codeowners_cex :
    lookup fsBadCodeowners [".github", "CODEOWNERS"] = some (.file false "src/ @team") ∧
    mainExit fsBadCodeowners ["a", "b"] = 1 :=
  ⟨rfl, rfl⟩

/-- Claim C6 (amended): fewer than two arguments exit with status `1`;
with at least two arguments the exit status is `0` whenever the CODEOWNERS
read does not throw (missing CODEOWNERS included), even when zero files
match. -/
theorem mainExit_usage_and_success (root : Entry) (args : List String) :
    (args.length < 2 → mainExit root args = 1) ∧
    (∀ entries, parseCodeowners root = .ok entries → 2 ≤ args.length →
      mainExit root args = 0) := by
  constructor
  · intro h
    cases args with
    | nil => rfl
    | cons a t =>
      cases t with
      | nil => rfl
      | cons b r => simp at h; omega
  · intro entries he h2
    cases args with
    | nil => simp at h2
    | cons a t =>
      cases t with
      | nil => simp at h2
      | cons b r =>
        unfold mainExit findCodeownersPaths
        rw [he]

/-- Claim C6, witness for the amended theorem. -/
theorem mainExit_usage_and_success_witness :
    mainExit fsNoIgnore ["onlyOne"] = 1 ∧ mainExit fsNoIgnore ["TODO", "@team"] = 0 :=
  ⟨(mainExit_usage_and_success fsNoIgnore ["onlyOne"]).1 (by decide),
   (mainExit_usage_and_success fsNoIgnore ["TODO", "@team"]).2
     [⟨"src/", ["@team"]⟩, ⟨"notes.txt", ["@team"]⟩] rfl (by decide)⟩

/-- Claim C7: the returned result list never contains a file twice — the
matches are accumulated through the order-preserving deduplicating `Set`
insertion. -/
theorem findCodeownersPaths_nodup (root : Entry) (term team : String) (l : List String)
    (h : findCodeownersPaths root term team = .ok l) : l.Nodup := by
  unfold findCodeownersPaths at h
  cases hpc : parseCodeowners root with
  | error e => rw [hpc] at h; cases h
  | ok entries =>
    rw [hpc] at h
    have hl : entries.foldl (entryStep root term team) [] = l := by
      cases h; rfl
    rw [← hl]
    exact foldl_entryStep_nodup root term team entries [] List.nodup_nil

/-- Claim C7, witness: two owned patterns overlap on `"notes.txt"` and the
result still lists it once. -/
theorem findCodeownersPaths_nodup_witness : (["notes.txt"] : List String).Nodup :=
  findCodeownersPaths_nodup fsOverlap "TODO" "@t" ["notes.txt"] rfl

/-- Claim C8: the pattern `"*.log"` ignores `"a.log"` and `"dir/b.log"` but
not `"a.logx"`. -/
theorem isIgnored_star_log :
    isIgnored "a.log" ["*.log"] = true ∧
    isIgnored "dir/b.log" ["*.log"] = true ∧
    isIgnored "a.logx" ["*.log"] = false :=
  ⟨rfl, rfl, rfl⟩

/-- Claim C9: a search path naming a single regular file is read and tested
without consulting the ignore set, so a file matched by an ignore pattern is
still reported when its content contains the term. -/
theorem searchInFiles_ignored_file (root : Entry) (base term : String) (c : String)
    (pats : List String)
    (h1 : lookup root (normBase base) = some (.file true c))
    (h2 : parseGitignore root = .ok pats)
    (h3 : isIgnored (pathJoin (normBase base)) pats = true)
    (h4 : jsIncludes (strLower c) (strLower term) = true) :
    searchInFiles root base term = [pathJoin (normBase base)] := by
  unfold searchInFiles
  rw [h1]
  simp [h4]

/-- Claim C9, witness: `"secret.txt"` is in the ignore set yet is reported
when named directly. -/
theorem searchInFiles_ignored_file_witness :
    searchInFiles fsIgnoredFile "secret.txt" "todo" = [pathJoin (normBase "secret.txt")] :=
  searchInFiles_ignored_file fsIgnoredFile "secret.txt" "todo" "TODO x"
    ["secret.txt"] rfl rfl rfl rfl

/-- Claim C10: a non-blank non-comment line with at least two tokens none of
which starts with `'@'` is not skipped — it parses to an entry with an empty
owner list (so it is counted), and such an entry can never match any
requested owner. -/
theorem parseLine_no_sigil (line : String)
    (h1 : trimChars line.toList ≠ [])
    (h2 : startsWithChar '#' (trimChars line.toList) = false)
    (h3 : 2 ≤ (lineTokens line).length)
    (h4 : ∀ p ∈ lineTokens line, startsWithChar '@' p = false) :
    (parseLine line).map CEntry.owners = some [] ∧
    ∀ team, (parseLine line).map (fun e => ownerMatch e team) = some false := by
  have ht : (trimChars line.toList).isEmpty = false := by
    cases hcase : trimChars line.toList with
    | nil => exact absurd hcase h1
    | cons c cs => rfl
  have hfilter : (lineTokens line).filter (fun p => startsWithChar '@' p) = [] := by
    rw [List.filter_eq_nil_iff]
    intro p hp
    simp [h4 p hp]
  unfold parseLine
  rw [h2, ht]
  simp only [Bool.or_self, Bool.false_or, if_false]
  cases htok : lineTokens line with
  | nil => rw [htok] at h3; simp at h3
  | cons p0 t =>
    cases t with
    | nil => rw [htok] at h3; simp at h3
    | cons p1 r =>
      rw [htok] at hfilter
      rw [hfilter]
      simp [ownerMatch]

/-- Claim C10, witness at the line `"src/ foo"`. -/
theorem parseLine_no_sigil_witness :
    (parseLine "src/ foo").map CEntry.owners = some [] :=
  (parseLine_no_sigil "src/ foo" (by decide) (by decide) (by decide) (by decide)).1

end SBC
